import Mathlib

set_option maxHeartbeats 1000000

/-!
Verification development for the Memento photo-wall backend.

The definitions below are shallow embeddings of the TypeScript sources:
JS epoch-millisecond timestamps become `Int`, JS strings become Lean
`String` (or lists of UTF-16 code units where the code-unit level
matters), JS arrays become `List`, ES `Map`/`Set` become association
lists / membership lists, and each request handler becomes a pure
function from room state to room state together with its observable
effects (messages appended to each connection, close codes).
-/

/-! ## Rate limiter — src/utils/rateLimiter.ts -/

structure RateLimitState where
  photoUploads : List Int
  danmakuSends : List Int
deriving DecidableEq

structure RateLimitConfig where
  photoLimit : Nat
  photoWindow : Int
  danmakuLimit : Nat
  danmakuWindow : Int
deriving DecidableEq

/-- DEFAULT_RATE_LIMIT_CONFIG from rateLimiter.ts:
20 photos per 60000 ms, 1 danmaku per 2000 ms. -/
def DEFAULT_RATE_LIMIT_CONFIG : RateLimitConfig :=
  ⟨20, 60000, 1, 2000⟩

inductive ActionType
  | photo
  | danmaku
deriving DecidableEq

structure RateLimitResult where
  allowed : Bool
  retryAfter : Option Int
deriving DecidableEq

/-- checkRateLimit from rateLimiter.ts.  Math.min / Math.max over the
filtered list (nonempty in every deny branch reached with the limits
that occur in the source, which are positive) are modelled by
List.min? / List.max? with a default that is never read there. -/
def checkRateLimit (state : RateLimitState) (type : ActionType)
    (config : RateLimitConfig) (now : Int) : RateLimitResult :=
  match type with
  | .photo =>
    let recentUploads := state.photoUploads.filter (fun t => now - t < config.photoWindow)
    if config.photoLimit ≤ recentUploads.length then
      let oldestUpload := recentUploads.min?.getD 0
      ⟨false, some (config.photoWindow - (now - oldestUpload))⟩
    else
      ⟨true, none⟩
  | .danmaku =>
    let recentSends := state.danmakuSends.filter (fun t => now - t < config.danmakuWindow)
    if config.danmakuLimit ≤ recentSends.length then
      let lastSend := recentSends.max?.getD 0
      ⟨false, some (config.danmakuWindow - (now - lastSend))⟩
    else
      ⟨true, none⟩

/-- recordAction from rateLimiter.ts: returns the window-filtered log with
now appended; the input is not mutated. -/
def recordAction (state : RateLimitState) (type : ActionType)
    (config : RateLimitConfig) (now : Int) : RateLimitState :=
  match type with
  | .photo =>
    { state with
      photoUploads :=
        state.photoUploads.filter (fun t => now - t < config.photoWindow) ++ [now] }
  | .danmaku =>
    { state with
      danmakuSends :=
        state.danmakuSends.filter (fun t => now - t < config.danmakuWindow) ++ [now] }

/-- createRateLimitState from rateLimiter.ts. -/
def createRateLimitState : RateLimitState := ⟨[], []⟩

/-- C2: the rate-limiter check filters the log to the entries within the
kind's window (photo: 60000 ms / 20 actions; chat: 2000 ms / 1 action)
and denies exactly when the filtered count has reached the kind's limit;
on denial retryAfterMs is window minus (now minus the oldest in-window
entry) for photo and window minus (now minus the most recent in-window
entry) for chat; in particular a single chat action recorded at t makes
check deny at t+1500 with retryAfterMs in (0, 500] and allow at t+2100. -/
theorem checkRateLimit_window_rule (s : RateLimitState) (now : Int) :
    (((checkRateLimit s .photo DEFAULT_RATE_LIMIT_CONFIG now).allowed = false) ↔
      20 ≤ (s.photoUploads.filter (fun t => now - t < 60000)).length)
    ∧ ((checkRateLimit s .photo DEFAULT_RATE_LIMIT_CONFIG now).allowed = false →
        ∃ oldest, (s.photoUploads.filter (fun t => now - t < 60000)).min? = some oldest ∧
          (checkRateLimit s .photo DEFAULT_RATE_LIMIT_CONFIG now).retryAfter =
            some (60000 - (now - oldest)))
    ∧ (((checkRateLimit s .danmaku DEFAULT_RATE_LIMIT_CONFIG now).allowed = false) ↔
      1 ≤ (s.danmakuSends.filter (fun t => now - t < 2000)).length)
    ∧ ((checkRateLimit s .danmaku DEFAULT_RATE_LIMIT_CONFIG now).allowed = false →
        ∃ latest, (s.danmakuSends.filter (fun t => now - t < 2000)).max? = some latest ∧
          (checkRateLimit s .danmaku DEFAULT_RATE_LIMIT_CONFIG now).retryAfter =
            some (2000 - (now - latest)))
    ∧ (∀ t : Int,
        (checkRateLimit (recordAction createRateLimitState .danmaku DEFAULT_RATE_LIMIT_CONFIG t)
            .danmaku DEFAULT_RATE_LIMIT_CONFIG (t + 1500)).allowed = false
        ∧ (∃ r, (checkRateLimit (recordAction createRateLimitState .danmaku DEFAULT_RATE_LIMIT_CONFIG t)
            .danmaku DEFAULT_RATE_LIMIT_CONFIG (t + 1500)).retryAfter = some r ∧ 0 < r ∧ r ≤ 500)
        ∧ (checkRateLimit (recordAction createRateLimitState .danmaku DEFAULT_RATE_LIMIT_CONFIG t)
            .danmaku DEFAULT_RATE_LIMIT_CONFIG (t + 2100)).allowed = true) := by
  refine ⟨?_, ?_, ?_, ?_, ?_⟩
  · by_cases hc : 20 ≤ (s.photoUploads.filter (fun t => now - t < 60000)).length
    · simp [checkRateLimit, DEFAULT_RATE_LIMIT_CONFIG, hc]
    · simp [checkRateLimit, DEFAULT_RATE_LIMIT_CONFIG, hc]
  · intro hden
    by_cases hc : 20 ≤ (s.photoUploads.filter (fun t => now - t < 60000)).length
    · have hne : s.photoUploads.filter (fun t => now - t < 60000) ≠ [] := by
        intro h0
        rw [h0] at hc
        simp at hc
      cases hmin : (s.photoUploads.filter (fun t => now - t < 60000)).min? with
      | none => exact absurd (List.min?_eq_none_iff.mp hmin) hne
      | some m =>
        exact ⟨m, rfl, by simp [checkRateLimit, DEFAULT_RATE_LIMIT_CONFIG, hc, hmin]⟩
    · exfalso
      simp [checkRateLimit, DEFAULT_RATE_LIMIT_CONFIG, hc] at hden
  · by_cases hc : 1 ≤ (s.danmakuSends.filter (fun t => now - t < 2000)).length
    · simp [checkRateLimit, DEFAULT_RATE_LIMIT_CONFIG, hc]
    · simp [checkRateLimit, DEFAULT_RATE_LIMIT_CONFIG, hc]
  · intro hden
    by_cases hc : 1 ≤ (s.danmakuSends.filter (fun t => now - t < 2000)).length
    · have hne : s.danmakuSends.filter (fun t => now - t < 2000) ≠ [] := by
        intro h0
        rw [h0] at hc
        simp at hc
      cases hmax : (s.danmakuSends.filter (fun t => now - t < 2000)).max? with
      | none => exact absurd (List.max?_eq_none_iff.mp hmax) hne
      | some m =>
        exact ⟨m, rfl, by simp [checkRateLimit, DEFAULT_RATE_LIMIT_CONFIG, hc, hmax]⟩
    · exfalso
      simp [checkRateLimit, DEFAULT_RATE_LIMIT_CONFIG, hc] at hden
  · intro t
    have hst : recordAction createRateLimitState .danmaku DEFAULT_RATE_LIMIT_CONFIG t =
        ⟨[], [t]⟩ := by
      simp [recordAction, createRateLimitState]
    have h1 : checkRateLimit ⟨[], [t]⟩ .danmaku DEFAULT_RATE_LIMIT_CONFIG (t + 1500) =
        ⟨false, some 500⟩ := by
      simp [checkRateLimit, DEFAULT_RATE_LIMIT_CONFIG,
        show t + 1500 - t < 2000 by omega]
    have h2 : checkRateLimit ⟨[], [t]⟩ .danmaku DEFAULT_RATE_LIMIT_CONFIG (t + 2100) =
        ⟨true, none⟩ := by
      simp [checkRateLimit, DEFAULT_RATE_LIMIT_CONFIG,
        show ¬(t + 2100 - t < 2000) by omega]
    rw [hst]
    refine ⟨by rw [h1], ⟨500, by rw [h1], by omega, by omega⟩, by rw [h2]⟩

/-- Witness for checkRateLimit_window_rule at a concrete log and clock. -/
theorem checkRateLimit_window_rule_witness :
    (checkRateLimit ⟨[], [(0 : Int)]⟩ .danmaku DEFAULT_RATE_LIMIT_CONFIG 1500).allowed = false :=
  (checkRateLimit_window_rule ⟨[], [(0 : Int)]⟩ 1500).2.2.1.mpr (by decide)

/-- C3 counterexample: with the chat kind, recording a single action at
time 0 and then checking at the same time 0 denies, even though the
just-recorded action is the sole entry in the window — refuting the
claim that record-then-check at the same now never denies for both
action kinds. -/
theorem record_then_check_denies_chat :
    ((recordAction createRateLimitState .danmaku DEFAULT_RATE_LIMIT_CONFIG 0).danmakuSends.filter
        (fun t => (0 : Int) - t < 2000)).length = 1
    ∧ (checkRateLimit (recordAction createRateLimitState .danmaku DEFAULT_RATE_LIMIT_CONFIG 0)
        .danmaku DEFAULT_RATE_LIMIT_CONFIG 0).allowed = false := by
  decide

/-- C3 (amended): record-then-check at the same now never denies a photo
action that is the sole entry in its window; for the chat kind,
record-then-check at the same now always denies, because the chat limit
is 1 and the just-recorded action itself saturates the window. -/
theorem record_then_check_nondegenerate (s : RateLimitState) (now : Int) :
    (((recordAction s .photo DEFAULT_RATE_LIMIT_CONFIG now).photoUploads.filter
        (fun t => now - t < 60000)).length = 1 →
      (checkRateLimit (recordAction s .photo DEFAULT_RATE_LIMIT_CONFIG now) .photo
        DEFAULT_RATE_LIMIT_CONFIG now).allowed = true)
    ∧ (checkRateLimit (recordAction s .danmaku DEFAULT_RATE_LIMIT_CONFIG now) .danmaku
        DEFAULT_RATE_LIMIT_CONFIG now).allowed = false := by
  constructor
  · intro hsole
    have hW : DEFAULT_RATE_LIMIT_CONFIG.photoWindow = 60000 := rfl
    have hL : DEFAULT_RATE_LIMIT_CONFIG.photoLimit = 20 := rfl
    have h20 : ¬ (20 ≤ ((recordAction s .photo DEFAULT_RATE_LIMIT_CONFIG now).photoUploads.filter
        (fun t => now - t < 60000)).length) := by omega
    simp [checkRateLimit, hW, hL, h20]
  · have hmem : (now : Int) ∈ (recordAction s .danmaku DEFAULT_RATE_LIMIT_CONFIG now).danmakuSends.filter
        (fun t => now - t < 2000) := by
      simp [recordAction, List.mem_filter]
    have hlen : 1 ≤ ((recordAction s .danmaku DEFAULT_RATE_LIMIT_CONFIG now).danmakuSends.filter
        (fun t => now - t < 2000)).length := by
      cases hf : (recordAction s .danmaku DEFAULT_RATE_LIMIT_CONFIG now).danmakuSends.filter
          (fun t => now - t < 2000) with
      | nil => rw [hf] at hmem; simp at hmem
      | cons a l => simp
    have hW : DEFAULT_RATE_LIMIT_CONFIG.danmakuWindow = 2000 := rfl
    have hL : DEFAULT_RATE_LIMIT_CONFIG.danmakuLimit = 1 := rfl
    simp [checkRateLimit, hW, hL, hlen]

/-- Witness for record_then_check_nondegenerate on a concrete empty log. -/
theorem record_then_check_nondegenerate_witness :
    (checkRateLimit (recordAction createRateLimitState .photo DEFAULT_RATE_LIMIT_CONFIG 0) .photo
      DEFAULT_RATE_LIMIT_CONFIG 0).allowed = true :=
  (record_then_check_nondegenerate createRateLimitState 0).1 (by decide)

/-! ## Identifier codec — src/utils/crypto.ts (encryptId / decryptId)

JS strings are modelled as lists of UTF-16 code units (Nat).  btoa
throws on a code unit above 255 (modelled by Option), and the uncaught
exception propagates out of encryptId; decryptId wraps its body in
try/catch and returns the empty string on failure. -/

/-- Code units of the XOR key "memento-secret-key-2024" from crypto.ts. -/
def KEY : List Nat := "memento-secret-key-2024".data.map Char.toNat

/-- KEY.charCodeAt(i % KEY.length). -/
def keyAt (i : Nat) : Nat := KEY.getD (i % KEY.length) 0

/-- The XOR pass shared by encryptId and decryptId, starting at index i. -/
def xorFrom (i : Nat) : List Nat → List Nat
  | [] => []
  | c :: cs => Nat.xor c (keyAt i) :: xorFrom (i + 1) cs

/-- Character code of the base64 alphabet at index n (n < 64 in use). -/
def b64char (n : Nat) : Nat :=
  if n < 26 then 65 + n
  else if n < 52 then 97 + (n - 26)
  else if n < 62 then 48 + (n - 52)
  else if n = 62 then 43
  else 47

/-- Base64 encoding of a byte list, with trailing padding (code 61). -/
def b64encode : List Nat → List Nat
  | [] => []
  | [a] => [b64char (a / 4), b64char (a % 4 * 16), 61, 61]
  | [a, b] => [b64char (a / 4), b64char (a % 4 * 16 + b / 16), b64char (b % 16 * 4), 61]
  | a :: b :: c :: rest =>
    b64char (a / 4) :: b64char (a % 4 * 16 + b / 16) ::
      b64char (b % 16 * 4 + c / 64) :: b64char (c % 64) :: b64encode rest

/-- btoa: fails (throws) when some code unit is at least 256. -/
def btoa (text : List Nat) : Option (List Nat) :=
  if text.all (fun b => b < 256) then some (b64encode text) else none

/-- Index of a character code in the base64 alphabet. -/
def b64decodeChar (c : Nat) : Option Nat :=
  if 65 ≤ c ∧ c ≤ 90 then some (c - 65)
  else if 97 ≤ c ∧ c ≤ 122 then some (c - 97 + 26)
  else if 48 ≤ c ∧ c ≤ 57 then some (c - 48 + 52)
  else if c = 43 then some 62
  else if c = 47 then some 63
  else none

/-- atob: base64 decoding in groups of four characters, accepting one or
two trailing padding characters (code 61) in the final group; fails
(throws) on any other shape, as the platform atob does on the inputs
reachable from decryptId. -/
def atob : List Nat → Option (List Nat)
  | [] => some []
  | c1 :: c2 :: c3 :: c4 :: rest =>
    if c3 = 61 ∧ c4 = 61 ∧ rest = [] then
      match b64decodeChar c1, b64decodeChar c2 with
      | some d1, some d2 => some [d1 * 4 + d2 / 16]
      | _, _ => none
    else if c4 = 61 ∧ rest = [] then
      match b64decodeChar c1, b64decodeChar c2, b64decodeChar c3 with
      | some d1, some d2, some d3 => some [d1 * 4 + d2 / 16, d2 % 16 * 16 + d3 / 4]
      | _, _, _ => none
    else
      match b64decodeChar c1, b64decodeChar c2, b64decodeChar c3, b64decodeChar c4,
          atob rest with
      | some d1, some d2, some d3, some d4, some tail =>
        some ((d1 * 4 + d2 / 16) :: (d2 % 16 * 16 + d3 / 4) :: (d3 % 4 * 64 + d4) :: tail)
      | _, _, _, _, _ => none
  | _ => none

/-- The URL-safe substitution in encryptId: plus to hyphen, slash to
underscore. -/
def urlSafeChar (c : Nat) : Nat :=
  if c = 43 then 45 else if c = 47 then 95 else c

/-- The inverse substitution in decryptId: hyphen to plus, underscore to
slash. -/
def urlUnsafeChar (c : Nat) : Nat :=
  if c = 45 then 43 else if c = 95 then 47 else c

/-- The trailing-padding strip in encryptId (the =+$ regex replace). -/
def dropTrailingEq (l : List Nat) : List Nat :=
  (l.reverse.dropWhile (fun c => c == 61)).reverse

/-- encryptId from crypto.ts: XOR with the key, btoa, URL-safe
substitution, strip trailing padding.  none models the btoa exception
escaping encryptId. -/
def encryptId (text : List Nat) : Option (List Nat) :=
  if text = [] then some []
  else
    match btoa (xorFrom 0 text) with
    | none => none
    | some b => some (dropTrailingEq (b.map urlSafeChar))

/-- The padding-restore block of decryptId: append padding characters
when the length is not a multiple of four. -/
def repad (base64 : List Nat) : List Nat :=
  if base64.length % 4 = 0 then base64
  else base64 ++ List.replicate (4 - base64.length % 4) 61

/-- decryptId from crypto.ts: undo the URL-safe substitution, restore
padding, atob, XOR with the key; any failure is caught and the empty
string returned. -/
def decryptId (encryptedText : List Nat) : List Nat :=
  if encryptedText = [] then []
  else
    match atob (repad (encryptedText.map urlUnsafeChar)) with
    | none => []
    | some text => xorFrom 0 text

theorem b64decodeChar_b64char (n : Nat) (h : n < 64) :
    b64decodeChar (b64char n) = some n := by
  have hall : ∀ m : Fin 64, b64decodeChar (b64char m.val) = some m.val := by decide
  exact hall ⟨n, h⟩

theorem b64char_notin (n : Nat) :
    b64char n ≠ 61 ∧ b64char n ≠ 45 ∧ b64char n ≠ 95 := by
  unfold b64char
  split <;> try omega
  split <;> try omega
  split <;> try omega
  split <;> omega

theorem b64encode_shape : ∀ bs : List Nat, bs ≠ [] →
    ∃ l p, b64encode bs = l ++ List.replicate p 61 ∧ l ≠ [] ∧
      (∀ c ∈ l, c ≠ 61 ∧ c ≠ 45 ∧ c ≠ 95) ∧ p ≤ 2 ∧ (l.length + p) % 4 = 0
  | [], h => absurd rfl h
  | [a], _ => by
    refine ⟨[b64char (a / 4), b64char (a % 4 * 16)], 2, by simp [b64encode], by simp, ?_, by omega, by simp⟩
    intro c hc
    simp at hc
    rcases hc with h | h <;> rw [h] <;> exact b64char_notin _
  | [a, b], _ => by
    refine ⟨[b64char (a / 4), b64char (a % 4 * 16 + b / 16), b64char (b % 16 * 4)], 1,
      by simp [b64encode], by simp, ?_, by omega, by simp⟩
    intro c hc
    simp at hc
    rcases hc with h | h | h <;> rw [h] <;> exact b64char_notin _
  | a :: b :: c :: rest, _ => by
    by_cases hr : rest = []
    · subst hr
      refine ⟨[b64char (a / 4), b64char (a % 4 * 16 + b / 16), b64char (b % 16 * 4 + c / 64),
        b64char (c % 64)], 0, by simp [b64encode], by simp, ?_, by omega, by simp⟩
      intro d hd
      simp at hd
      rcases hd with h | h | h | h <;> rw [h] <;> exact b64char_notin _
    · obtain ⟨l, p, h1, h2, h3, h4, h5⟩ := b64encode_shape rest hr
      refine ⟨b64char (a / 4) :: b64char (a % 4 * 16 + b / 16) ::
        b64char (b % 16 * 4 + c / 64) :: b64char (c % 64) :: l, p, ?_, by simp, ?_, h4, ?_⟩
      · simp [b64encode, h1]
      · intro d hd
        simp at hd
        rcases hd with h | h | h | h | h
        · rw [h]; exact b64char_notin _
        · rw [h]; exact b64char_notin _
        · rw [h]; exact b64char_notin _
        · rw [h]; exact b64char_notin _
        · exact h3 d h
      · simp only [List.length_cons]
        omega

theorem atob_b64encode : ∀ bs : List Nat, (∀ b ∈ bs, b < 256) →
    atob (b64encode bs) = some bs
  | [], _ => rfl
  | [a], h => by
    have ha : a < 256 := h a (by simp)
    have h1 : b64decodeChar (b64char (a / 4)) = some (a / 4) :=
      b64decodeChar_b64char _ (by omega)
    have h2 : b64decodeChar (b64char (a % 4 * 16)) = some (a % 4 * 16) :=
      b64decodeChar_b64char _ (by omega)
    simp [b64encode, atob, h1, h2]
    omega
  | [a, b], h => by
    have ha : a < 256 := h a (by simp)
    have hb : b < 256 := h b (by simp)
    have h1 : b64decodeChar (b64char (a / 4)) = some (a / 4) :=
      b64decodeChar_b64char _ (by omega)
    have h2 : b64decodeChar (b64char (a % 4 * 16 + b / 16)) = some (a % 4 * 16 + b / 16) :=
      b64decodeChar_b64char _ (by omega)
    have h3 : b64decodeChar (b64char (b % 16 * 4)) = some (b % 16 * 4) :=
      b64decodeChar_b64char _ (by omega)
    simp [b64encode, atob, h1, h2, h3, (b64char_notin (b % 16 * 4)).1]
    omega
  | a :: b :: c :: rest, h => by
    have ha : a < 256 := h a (by simp)
    have hb : b < 256 := h b (by simp)
    have hc : c < 256 := h c (by simp)
    have ih : atob (b64encode rest) = some rest :=
      atob_b64encode rest (fun x hx => h x (by simp [hx]))
    have h1 : b64decodeChar (b64char (a / 4)) = some (a / 4) :=
      b64decodeChar_b64char _ (by omega)
    have h2 : b64decodeChar (b64char (a % 4 * 16 + b / 16)) = some (a % 4 * 16 + b / 16) :=
      b64decodeChar_b64char _ (by omega)
    have h3 : b64decodeChar (b64char (b % 16 * 4 + c / 64)) = some (b % 16 * 4 + c / 64) :=
      b64decodeChar_b64char _ (by omega)
    have h4 : b64decodeChar (b64char (c % 64)) = some (c % 64) :=
      b64decodeChar_b64char _ (by omega)
    have hunfold : b64encode (a :: b :: c :: rest) =
        b64char (a / 4) :: b64char (a % 4 * 16 + b / 16) ::
          b64char (b % 16 * 4 + c / 64) :: b64char (c % 64) :: b64encode rest := by
      cases rest <;> simp [b64encode]
    rw [hunfold]
    simp [atob, h1, h2, h3, h4, ih, (b64char_notin (b % 16 * 4 + c / 64)).1,
      (b64char_notin (c % 64)).1]
    omega

theorem dropWhile_eq_replicate_append (p : Nat) (r : List Nat) :
    List.dropWhile (fun c => c == 61) (List.replicate p 61 ++ r) =
      List.dropWhile (fun c => c == 61) r := by
  induction p with
  | zero => simp
  | succ n ih => simp [List.replicate_succ, List.dropWhile, ih]

theorem dropTrailingEq_append (l : List Nat) (p : Nat) (h : ∀ c ∈ l, c ≠ 61) :
    dropTrailingEq (l ++ List.replicate p 61) = l := by
  unfold dropTrailingEq
  rw [List.reverse_append, List.reverse_replicate, dropWhile_eq_replicate_append]
  cases hrev : l.reverse with
  | nil =>
    have : l = [] := by simpa using congrArg List.reverse hrev
    simp [this]
  | cons a as =>
    have ha : a ∈ l := by
      have : a ∈ l.reverse := by rw [hrev]; simp
      simpa using this
    have : (a == 61) = false := by
      simpa using h a ha
    rw [List.dropWhile_cons_of_neg (by simp [this])]
    rw [← hrev, List.reverse_reverse]

theorem keyAt_lt (i : Nat) : keyAt i < 256 := by
  have hmem : ∀ c ∈ KEY, c < 256 := by decide
  unfold keyAt
  cases hg : KEY[i % KEY.length]? with
  | none => simp [List.getD, hg]
  | some c =>
    have : c ∈ KEY := by
      have := List.getElem?_eq_some.mp hg
      obtain ⟨hlt, hget⟩ := this
      exact hget ▸ List.getElem_mem hlt
    simpa [List.getD, hg] using hmem c this

theorem xorFrom_lt (i : Nat) (l : List Nat) (h : ∀ c ∈ l, c < 256) :
    ∀ b ∈ xorFrom i l, b < 256 := by
  induction l generalizing i with
  | nil => simp [xorFrom]
  | cons c cs ih =>
    intro b hb
    simp only [xorFrom, List.mem_cons] at hb
    rcases hb with hb | hb
    · subst hb
      have h1 : c < 2 ^ 8 := by simpa using h c (by simp)
      have h2 : keyAt i < 2 ^ 8 := by simpa using keyAt_lt i
      simpa using Nat.xor_lt_two_pow h1 h2
    · exact ih (i + 1) (fun x hx => h x (by simp [hx])) b hb

theorem xorFrom_xorFrom (i : Nat) (l : List Nat) : xorFrom i (xorFrom i l) = l := by
  induction l generalizing i with
  | nil => rfl
  | cons c cs ih =>
    simp only [xorFrom, List.cons.injEq]
    exact ⟨Nat.xor_cancel_right _ _, ih (i + 1)⟩

theorem xorFrom_eq_nil_iff (i : Nat) (l : List Nat) : xorFrom i l = [] ↔ l = [] := by
  cases l <;> simp [xorFrom]

theorem urlSafeChar_ne_61 (c : Nat) (h : c ≠ 61) : urlSafeChar c ≠ 61 := by
  unfold urlSafeChar
  split <;> try omega
  split <;> omega

theorem urlUnsafeChar_urlSafeChar (c : Nat) (h45 : c ≠ 45) (h95 : c ≠ 95) :
    urlUnsafeChar (urlSafeChar c) = c := by
  unfold urlSafeChar urlUnsafeChar
  by_cases h43 : c = 43
  · simp [h43]
  · by_cases h47 : c = 47
    · simp [h47]
    · simp [h43, h47, h45, h95]

/-- C8 counterexample: the codec round trip fails on a Unicode input.
For the one-character string with UTF-16 code unit 22909 (a CJK
character), encryptId throws, because btoa rejects code units above 255;
so decryptId(encryptId(x)) == x does not hold for every string x. -/
theorem encryptId_not_total_roundtrip :
    ¬ ((encryptId [22909]).map decryptId = some [22909]) := by decide

/-- C8 (amended): decryptId(encryptId(x)) == x holds for every string x
all of whose UTF-16 code units are below 256 — all ASCII strings and the
empty string included — while on a string containing a code unit of 256
or above encryptId throws (btoa rejects it). -/
theorem encryptId_decryptId_roundtrip (x : List Nat) (hx : ∀ c ∈ x, c < 256) :
    (encryptId x).map decryptId = some x := by
  by_cases hx0 : x = []
  · subst hx0
    simp [encryptId, decryptId]
  · have hbytes : ∀ b ∈ xorFrom 0 x, b < 256 := xorFrom_lt 0 x hx
    have hbtoa : btoa (xorFrom 0 x) = some (b64encode (xorFrom 0 x)) := by
      unfold btoa
      rw [if_pos]
      simp only [List.all_eq_true, decide_eq_true_eq]
      exact hbytes
    have hbs0 : xorFrom 0 x ≠ [] := by
      intro hcon
      exact hx0 ((xorFrom_eq_nil_iff 0 x).mp hcon)
    obtain ⟨l, p, hshape, hl0, hlchars, hp2, hmod⟩ := b64encode_shape (xorFrom 0 x) hbs0
    have hmap : (b64encode (xorFrom 0 x)).map urlSafeChar =
        l.map urlSafeChar ++ List.replicate p 61 := by
      rw [hshape, List.map_append, List.map_replicate]
      rfl
    have hstrip : dropTrailingEq ((b64encode (xorFrom 0 x)).map urlSafeChar) =
        l.map urlSafeChar := by
      rw [hmap]
      apply dropTrailingEq_append
      intro c hc
      obtain ⟨c0, hc0, hc0e⟩ := List.mem_map.mp hc
      exact hc0e ▸ urlSafeChar_ne_61 c0 (hlchars c0 hc0).1
    have henc : encryptId x = some (l.map urlSafeChar) := by
      unfold encryptId
      rw [if_neg hx0, hbtoa]
      show some (dropTrailingEq ((b64encode (xorFrom 0 x)).map urlSafeChar)) = _
      rw [hstrip]
    have hunmap : (l.map urlSafeChar).map urlUnsafeChar = l := by
      rw [List.map_map]
      have : ∀ c ∈ l, (urlUnsafeChar ∘ urlSafeChar) c = id c := by
        intro c hc
        exact urlUnsafeChar_urlSafeChar c (hlchars c hc).2.1 (hlchars c hc).2.2
      rw [List.map_congr_left this, List.map_id]
    have hne : l.map urlSafeChar ≠ [] := by
      simpa using hl0
    have hpad2 : repad l = l ++ List.replicate p 61 := by
      unfold repad
      have hp : p = 0 ∨ p = 1 ∨ p = 2 := by omega
      rcases hp with hp | hp | hp <;> subst hp
      · rw [if_pos (by omega)]
        simp
      · rw [if_neg (by omega)]
        have h3 : l.length % 4 = 3 := by omega
        rw [h3]
      · rw [if_neg (by omega)]
        have h2 : l.length % 4 = 2 := by omega
        rw [h2]
    have hatob : atob (repad l) = some (xorFrom 0 x) := by
      rw [hpad2, ← hshape]
      exact atob_b64encode _ hbytes
    have hdec : decryptId (l.map urlSafeChar) = x := by
      unfold decryptId
      rw [if_neg hne, hunmap, hatob]
      exact xorFrom_xorFrom 0 x
    rw [henc]
    simp only [Option.map_some']
    rw [hdec]

/-- Witness for encryptId_decryptId_roundtrip on a concrete ASCII id. -/
theorem encryptId_decryptId_roundtrip_witness :
    (encryptId ("abc123XYZ".data.map Char.toNat)).map decryptId =
      some ("abc123XYZ".data.map Char.toNat) :=
  encryptId_decryptId_roundtrip ("abc123XYZ".data.map Char.toNat) (by decide)

/-! ## Profanity filter — src/utils/profanityFilter.ts

JS toLowerCase / trim / substring tests are modelled on the character
lists of Lean strings (one Char per UTF-16 code unit for every string
occurring here). -/

/-- BLACKLIST from profanityFilter.ts. -/
def BLACKLIST : List String :=
  ["幹", "操", "靠北", "白癡", "笨蛋", "垃圾", "fuck", "shit", "damn"]

def lowerChars (l : List Char) : List Char := l.map Char.toLower

/-- JS String.prototype.trim: drop whitespace from both ends. -/
def trimChars (l : List Char) : List Char :=
  ((l.dropWhile Char.isWhitespace).reverse.dropWhile Char.isWhitespace).reverse

/-- containsProfanity from profanityFilter.ts: lower-case, trim, then
test each blacklist word (lower-cased) for substring containment. -/
def containsProfanity (content : String) : Bool :=
  BLACKLIST.any (fun w =>
    decide ((lowerChars w.data) <:+: (trimChars (lowerChars content.data))))

/-- One global case-insensitive replace of w by asterisks, as the
RegExp(word, gi) replace in filterProfanity does: scan left to right,
matches do not overlap. -/
def replaceWithStars (w : List Char) : List Char → List Char
  | [] => []
  | c :: cs =>
    if _h : 0 < w.length ∧ (lowerChars w).isPrefixOf (lowerChars (c :: cs)) then
      List.replicate w.length '*' ++ replaceWithStars w ((c :: cs).drop w.length)
    else
      c :: replaceWithStars w cs
termination_by l => l.length
decreasing_by
  · simp only [List.length_drop, List.length_cons]
    omega
  · simp

/-- filterProfanity from profanityFilter.ts: fold over the blacklist,
testing each word case-insensitively against the progressively filtered
text; the first component is the clean flag. -/
def filterProfanity (content : String) : Bool × String :=
  BLACKLIST.foldl
    (fun acc w =>
      if decide ((lowerChars w.data) <:+: (lowerChars acc.2.data)) then
        (false, ⟨replaceWithStars w.data acc.2.data⟩)
      else acc)
    (true, content)

/-! ## Validation — src/utils/validation.ts -/

structure ValidationResult where
  valid : Bool
  errors : List String
deriving DecidableEq

/-- validateDanmakuContent from validation.ts.  The falsy test on the
content collapses to the zero-length test. -/
def validateDanmakuContent (content : String) : ValidationResult :=
  let e1 :=
    if content.data.length = 0 ∨ (trimChars content.data).length = 0 then
      ["Danmaku content cannot be empty"]
    else []
  let e2 :=
    if 50 < content.data.length then ["Danmaku content exceeds 50 characters"] else []
  let e3 :=
    if containsProfanity content then ["Danmaku contains inappropriate content"] else []
  let errors := e1 ++ e2 ++ e3
  ⟨errors.isEmpty, errors⟩

/-- A character of the regex class backslash-w or hyphen. -/
def isWordChar (c : Char) : Bool :=
  c.isAlpha || c.isDigit || c == '_' || c == '-'

/-- validatePhotoUpload from validation.ts.  The falsy tests on the three
fields collapse into the pattern / prefix tests (an empty string fails
both). -/
def validatePhotoUpload (driveFileId thumbnailUrl fullUrl : String) : ValidationResult :=
  let e1 :=
    if driveFileId.data.length < 20 ∨ ¬ (driveFileId.data.all isWordChar = true) then
      ["Invalid Google Drive file ID"]
    else []
  let e2 :=
    if ¬ (("https://".data).isPrefixOf thumbnailUrl.data = true) then
      ["Invalid thumbnail URL"]
    else []
  let e3 :=
    if ¬ (("https://".data).isPrefixOf fullUrl.data = true) then
      ["Invalid full URL"]
    else []
  let errors := e1 ++ e2 ++ e3
  ⟨errors.isEmpty, errors⟩

/-! ## EventRoom — src/durableObjects/EventRoom.ts

One WebSocket is a record of its transport identity, readyState
(1 = OPEN), the messages the client has received, and the close code if
closed.  The ES maps sessions / sessionMetadata / rateLimitState become
lists; sessions (sessionId to WebSocket) is the conns list. -/

inductive Role
  | participant
  | display
deriving DecidableEq

structure ParticipantSession where
  id : String
  activityId : String
  joinedAt : Int
  role : Role
  isActive : Bool
deriving DecidableEq

structure Photo where
  id : String
  activityId : String
  sessionId : String
  driveFileId : String
  thumbnailUrl : String
  fullUrl : String
  uploadedAt : Int
  width : Option Int
  height : Option Int
deriving DecidableEq

inductive EventStatus
  | active
  | ended
deriving DecidableEq

structure ActivityEvent where
  id : String
  title : Option String
  createdAt : Int
  expiresAt : Int
  status : EventStatus
  driveFolderId : String
  photoCount : Nat
  participantCount : Nat
deriving DecidableEq

inductive ServerMessage
  | photoAdded (photo : Photo)
  | danmaku (id content sessionId : String) (timestamp : Int)
  | activityEnded (activityId reason : String) (timestamp : Int)
  | error (code message : String) (retryAfter : Option Int)
deriving DecidableEq

structure Conn where
  wsid : Nat
  sessionId : String
  readyState : Nat
  sent : List ServerMessage
  closeCode : Option Nat
deriving DecidableEq

/-- The in-memory state of one EventRoom instance.  doName is
state.id.name (none when absent or empty); syncTimerRunning models the
syncInterval handle. -/
structure RoomState where
  event : Option ActivityEvent
  photos : List Photo
  driveFileIdSet : List String
  conns : List Conn
  sessionMetadata : List (String × ParticipantSession)
  rateLimitState : List (String × RateLimitState)
  doName : Option String
  syncTimerRunning : Bool
deriving DecidableEq

/-- Map.get on an association list. -/
def lookupAssoc {β : Type} (l : List (String × β)) (k : String) : Option β :=
  (l.find? (fun p => p.1 == k)).map Prod.snd

/-- Map.set on an association list. -/
def setAssoc {β : Type} (l : List (String × β)) (k : String) (v : β) :
    List (String × β) :=
  if l.any (fun p => p.1 == k) then l.map (fun p => if p.1 == k then (k, v) else p)
  else l ++ [(k, v)]

/-- broadcast: send to every connection with readyState OPEN. -/
def broadcast (conns : List Conn) (m : ServerMessage) : List Conn :=
  conns.map (fun c => if c.readyState = 1 then { c with sent := c.sent ++ [m] } else c)

/-- The receiving condition of broadcastToDisplays: the session found for
the connection has the display role, and the socket is OPEN. -/
def isDisplayOpen (meta : List (String × ParticipantSession)) (c : Conn) : Bool :=
  (match lookupAssoc meta c.sessionId with
   | some s => s.role == Role.display
   | none => false) && (c.readyState == 1)

/-- broadcastToDisplays: send only to OPEN display-role connections. -/
def broadcastToDisplays (meta : List (String × ParticipantSession))
    (conns : List Conn) (m : ServerMessage) : List Conn :=
  conns.map (fun c => if isDisplayOpen meta c then { c with sent := c.sent ++ [m] } else c)

/-- ws.send to a single socket (direct error replies). -/
def sendTo (conns : List Conn) (wsid : Nat) (m : ServerMessage) : List Conn :=
  conns.map (fun c => if c.wsid = wsid then { c with sent := c.sent ++ [m] } else c)

/-- ws.close(code) on every connection. -/
def closeAll (conns : List Conn) (code : Nat) : List Conn :=
  conns.map (fun c => { c with closeCode := some code })

structure NotifyPhotoBody where
  driveFileId : String
  thumbnailUrl : String
  fullUrl : String
  width : Option Int
  height : Option Int
deriving DecidableEq

inductive NotifyPhotoResult
  | eventNotActive
  | duplicate
  | created (photo : Photo)
deriving DecidableEq

/-- handleNotifyPhoto from EventRoom.ts.  freshId models generateULID,
now models Date.now.  duplicate is the success response with
duplicate: true; eventNotActive is the 400 response. -/
def handleNotifyPhoto (room : RoomState) (body : NotifyPhotoBody)
    (freshId : String) (now : Int) : NotifyPhotoResult × RoomState :=
  match room.event with
  | none => (.eventNotActive, room)
  | some ev =>
    if ev.status ≠ .active then (.eventNotActive, room)
    else if body.driveFileId ∈ room.driveFileIdSet then (.duplicate, room)
    else
      let photo : Photo :=
        ⟨freshId, ev.id, "upload", body.driveFileId, body.thumbnailUrl, body.fullUrl,
          now, body.width, body.height⟩
      let photos := room.photos ++ [photo]
      (.created photo,
        { room with
          photos := photos
          driveFileIdSet := room.driveFileIdSet ++ [body.driveFileId]
          event := some { ev with photoCount := photos.length }
          conns := broadcastToDisplays room.sessionMetadata room.conns (.photoAdded photo) })

inductive EndResult
  | notFound
  | ended (ev : ActivityEvent)
deriving DecidableEq

/-- handleEndEvent from EventRoom.ts.  The registries are cleared after
the sockets are broadcast to and closed; the third component returns the
final observable state of the sockets that were removed from the
registry (what each client saw). -/
def handleEndEvent (room : RoomState) (now : Int) :
    EndResult × RoomState × List Conn :=
  match room.event with
  | none => (.notFound, room, [])
  | some ev =>
    let ev' := { ev with status := EventStatus.ended }
    let conns1 := broadcast room.conns (.activityEnded ev'.id "Host ended the event" now)
    let finalConns := closeAll conns1 1000
    (.ended ev',
      { room with
        event := some ev'
        syncTimerRunning := false
        conns := []
        sessionMetadata := []
        rateLimitState := [] },
      finalConns)

/-- UTF-16 code units of a Lean string (all strings used here are in the
basic plane, where code points and code units agree). -/
def strUnits (s : String) : List Nat := s.data.map Char.toNat

def unitsStr (l : List Nat) : String := ⟨l.map Char.ofNat⟩

/-- encryptId applied to a String, as EventRoom imports it. -/
def encryptIdStr (s : String) : Option String := (encryptId (strUnits s)).map unitsStr

/-- autoRestartEvent from EventRoom.ts.  folderName is the result of the
getFolderName call against the external store (none on failure, as the
inner try/catch continues without a title); a thrown encryptId is caught
by the outer try/catch, leaving the event null. -/
def autoRestartEvent (room : RoomState) (folderName : Option String) (now : Int) :
    RoomState :=
  match room.doName with
  | none => room
  | some driveFolderId =>
    match encryptIdStr driveFolderId with
    | none => room
    | some eid =>
      { room with
        event := some
          ⟨eid, folderName, now, now + 86400000, .active, driveFolderId, 0, 0⟩ }

inductive GetResult
  | notFound
  | ok (event : ActivityEvent) (photos : List Photo) (activeConnections : Nat)
deriving DecidableEq

/-- handleGetEvent from EventRoom.ts: auto-restart when no event is
resident, recompute participantCount, return the event, the full photo
list, and the live connection count. -/
def handleGetEvent (room : RoomState) (folderName : Option String) (now : Int) :
    GetResult × RoomState :=
  let room1 :=
    match room.event with
    | none => autoRestartEvent room folderName now
    | some _ => room
  match room1.event with
  | none => (.notFound, room1)
  | some ev =>
    let ev' := { ev with participantCount := room1.sessionMetadata.length }
    (.ok ev' room1.photos room1.conns.length, { room1 with event := some ev' })

inductive UpgradeResult
  | notFound
  | tooManyConnections
  | accepted
deriving DecidableEq

/-- The state-mutating prefix of handleWebSocketUpgrade from
EventRoom.ts: auto-restart a missing event, resurrect an ended event
(status back to active, expiry extended 24 h) before the connection-cap
check, then admit the socket under the temporary id with readyState
OPEN. -/
def handleWebSocketUpgrade (room : RoomState) (folderName : Option String)
    (now : Int) (tempId : String) (newWsid : Nat) : UpgradeResult × RoomState :=
  let room1 :=
    match room.event with
    | none => autoRestartEvent room folderName now
    | some _ => room
  match room1.event with
  | none => (.notFound, room1)
  | some ev =>
    let ev' :=
      if ev.status = EventStatus.ended then
        { ev with status := EventStatus.active, expiresAt := now + 86400000 }
      else ev
    let room2 := { room1 with event := some ev' }
    if 500 ≤ room2.conns.length then (.tooManyConnections, room2)
    else
      (.accepted, { room2 with conns := room2.conns ++ [⟨newWsid, tempId, 1, [], none⟩] })

structure PhotoMessage where
  driveFileId : String
  thumbnailUrl : String
  fullUrl : String
  width : Option Int
  height : Option Int
deriving DecidableEq

/-- The success tail of handlePhotoAdded: create the Photo, append to the
ledger and the dedup set, update photoCount, record the rate-limit
action when a state exists for the session, broadcast to display
connections only.  The non-null assertion on the resident event is
modelled with Option.map / getD; every use below hypothesises a resident
event. -/
def commitPhoto (room : RoomState) (sessionId : String) (stOpt : Option RateLimitState)
    (msg : PhotoMessage) (freshId : String) (now : Int) : RoomState :=
  let photo : Photo :=
    ⟨freshId, (room.event.map (fun ev => ev.id)).getD "", sessionId, msg.driveFileId,
      msg.thumbnailUrl, msg.fullUrl, now, msg.width, msg.height⟩
  let photos := room.photos ++ [photo]
  { room with
    photos := photos
    driveFileIdSet := room.driveFileIdSet ++ [photo.driveFileId]
    event := room.event.map (fun ev => { ev with photoCount := photos.length })
    rateLimitState :=
      match stOpt with
      | some st =>
        setAssoc room.rateLimitState sessionId
          (recordAction st .photo DEFAULT_RATE_LIMIT_CONFIG now)
      | none => room.rateLimitState
    conns := broadcastToDisplays room.sessionMetadata room.conns (.photoAdded photo) }

/-- handlePhotoAdded from EventRoom.ts: validate, silently drop a
duplicate dedup key, check the photo rate limit when a state exists for
the session, then commit and broadcast to displays. -/
def handlePhotoAdded (room : RoomState) (sessionId : String) (senderWsid : Nat)
    (msg : PhotoMessage) (freshId : String) (now : Int) : RoomState :=
  let validation := validatePhotoUpload msg.driveFileId msg.thumbnailUrl msg.fullUrl
  if validation.valid = false then
    { room with
      conns := sendTo room.conns senderWsid
        (.error "INVALID_PHOTO" (String.intercalate ", " validation.errors) none) }
  else if msg.driveFileId ∈ room.driveFileIdSet then
    room
  else
    match lookupAssoc room.rateLimitState sessionId with
    | some st =>
      let rlc := checkRateLimit st .photo DEFAULT_RATE_LIMIT_CONFIG now
      if rlc.allowed = false then
        { room with
          conns := sendTo room.conns senderWsid
            (.error "RATE_LIMIT_EXCEEDED" "Too many photo uploads. Please wait."
              rlc.retryAfter) }
      else commitPhoto room sessionId (some st) msg freshId now
    | none => commitPhoto room sessionId none msg freshId now

/-- The success tail of handleDanmaku: record the rate-limit action when
a state exists for the session and broadcast the danmaku to all OPEN
connections; nothing is stored. -/
def commitDanmaku (room : RoomState) (sessionId : String) (stOpt : Option RateLimitState)
    (content : String) (freshId : String) (now : Int) : RoomState :=
  { room with
    rateLimitState :=
      match stOpt with
      | some st =>
        setAssoc room.rateLimitState sessionId
          (recordAction st .danmaku DEFAULT_RATE_LIMIT_CONFIG now)
      | none => room.rateLimitState
    conns := broadcast room.conns (.danmaku freshId content sessionId now) }

/-- handleDanmaku from EventRoom.ts: validate content (length and
profanity), run the standalone profanity filter, check the chat rate
limit when a state exists for the session, then broadcast to all
connections. -/
def handleDanmaku (room : RoomState) (sessionId : String) (senderWsid : Nat)
    (content : String) (freshId : String) (now : Int) : RoomState :=
  let validation := validateDanmakuContent content
  if validation.valid = false then
    { room with
      conns := sendTo room.conns senderWsid
        (.error "INVALID_DANMAKU" (String.intercalate ", " validation.errors) none) }
  else if (filterProfanity content).1 = false then
    { room with
      conns := sendTo room.conns senderWsid
        (.error "PROFANITY_DETECTED" "Message contains inappropriate content" none) }
  else
    match lookupAssoc room.rateLimitState sessionId with
    | some st =>
      let rlc := checkRateLimit st .danmaku DEFAULT_RATE_LIMIT_CONFIG now
      if rlc.allowed = false then
        { room with
          conns := sendTo room.conns senderWsid
            (.error "RATE_LIMIT_EXCEEDED" "Please wait before sending another message"
              rlc.retryAfter) }
      else commitDanmaku room sessionId (some st) content freshId now
    | none => commitDanmaku room sessionId none content freshId now

/-- C10: in the WebSocket photo_added path, the dedup-key check precedes
the rate-limit check and all mutation: a validated submission whose
externalFileRef is already in the ledger leaves the room state — the
sender's rate-limit log, the photo ledger, the dedup index — entirely
unchanged and sends no message to any connection. -/
theorem handlePhotoAdded_duplicate_frame (room : RoomState) (sessionId : String)
    (senderWsid : Nat) (msg : PhotoMessage) (freshId : String) (now : Int)
    (hvalid : (validatePhotoUpload msg.driveFileId msg.thumbnailUrl msg.fullUrl).valid = true)
    (hdup : msg.driveFileId ∈ room.driveFileIdSet) :
    handlePhotoAdded room sessionId senderWsid msg freshId now = room := by
  simp [handlePhotoAdded, hvalid, hdup]

/-- Witness for handlePhotoAdded_duplicate_frame on a concrete room. -/
theorem handlePhotoAdded_duplicate_frame_witness :
    handlePhotoAdded
      ⟨none, [], ["abcdefghij1234567890"], [⟨7, "s1", 1, [], none⟩], [], [], none, false⟩
      "s1" 7 ⟨"abcdefghij1234567890", "https://t", "https://f", none, none⟩ "m1" 0 =
      ⟨none, [], ["abcdefghij1234567890"], [⟨7, "s1", 1, [], none⟩], [], [], none, false⟩ :=
  handlePhotoAdded_duplicate_frame _ "s1" 7 _ "m1" 0 (by decide) (by decide)

/-- The ledger/dedup-index consistency invariant: a drive file id is in
the dedup set exactly when exactly one Photo in the ledger carries it. -/
def dedupInvariant (room : RoomState) : Prop :=
  ∀ d : String,
    room.photos.countP (fun p => p.driveFileId == d) =
      if d ∈ room.driveFileIdSet then 1 else 0

/-- C1: on an active resident event, calling notifyPhoto twice with the
same driveFileId leaves exactly one Photo with that driveFileId in the
ledger, and the second call returns the success result with
duplicate: true. -/
theorem handleNotifyPhoto_dedup_idempotent (room : RoomState) (body : NotifyPhotoBody)
    (id1 id2 : String) (t1 t2 : Int) (ev : ActivityEvent)
    (hev : room.event = some ev) (hact : ev.status = .active)
    (hinv : dedupInvariant room) :
    (handleNotifyPhoto (handleNotifyPhoto room body id1 t1).2 body id2 t2).1 =
      NotifyPhotoResult.duplicate
    ∧ ((handleNotifyPhoto (handleNotifyPhoto room body id1 t1).2 body id2 t2).2.photos.countP
        (fun p => p.driveFileId == body.driveFileId)) = 1 := by
  by_cases hd : body.driveFileId ∈ room.driveFileIdSet
  · have h1 : handleNotifyPhoto room body id1 t1 = (.duplicate, room) := by
      simp [handleNotifyPhoto, hev, hact, hd]
    rw [h1]
    have h2 : handleNotifyPhoto room body id2 t2 = (.duplicate, room) := by
      simp [handleNotifyPhoto, hev, hact, hd]
    refine ⟨by rw [h2], ?_⟩
    rw [h2]
    simpa [hd] using hinv body.driveFileId
  · have h1 : handleNotifyPhoto room body id1 t1 =
        (.created
          ⟨id1, ev.id, "upload", body.driveFileId, body.thumbnailUrl, body.fullUrl,
            t1, body.width, body.height⟩,
         { room with
           photos := room.photos ++
             [⟨id1, ev.id, "upload", body.driveFileId, body.thumbnailUrl, body.fullUrl,
               t1, body.width, body.height⟩]
           driveFileIdSet := room.driveFileIdSet ++ [body.driveFileId]
           event := some { ev with photoCount := room.photos.length + 1 }
           conns := broadcastToDisplays room.sessionMetadata room.conns
             (.photoAdded
               ⟨id1, ev.id, "upload", body.driveFileId, body.thumbnailUrl, body.fullUrl,
                 t1, body.width, body.height⟩) }) := by
      simp [handleNotifyPhoto, hev, hact, hd]
    rw [h1]
    have hd2 : body.driveFileId ∈ room.driveFileIdSet ++ [body.driveFileId] := by
      simp
    have h2 : (handleNotifyPhoto
        { room with
          photos := room.photos ++
            [⟨id1, ev.id, "upload", body.driveFileId, body.thumbnailUrl, body.fullUrl,
              t1, body.width, body.height⟩]
          driveFileIdSet := room.driveFileIdSet ++ [body.driveFileId]
          event := some { ev with photoCount := room.photos.length + 1 }
          conns := broadcastToDisplays room.sessionMetadata room.conns
            (.photoAdded
              ⟨id1, ev.id, "upload", body.driveFileId, body.thumbnailUrl, body.fullUrl,
                t1, body.width, body.height⟩) } body id2 t2).1 =
        NotifyPhotoResult.duplicate := by
      simp [handleNotifyPhoto, hact, hd2]
    have h2s : (handleNotifyPhoto
        { room with
          photos := room.photos ++
            [⟨id1, ev.id, "upload", body.driveFileId, body.thumbnailUrl, body.fullUrl,
              t1, body.width, body.height⟩]
          driveFileIdSet := room.driveFileIdSet ++ [body.driveFileId]
          event := some { ev with photoCount := room.photos.length + 1 }
          conns := broadcastToDisplays room.sessionMetadata room.conns
            (.photoAdded
              ⟨id1, ev.id, "upload", body.driveFileId, body.thumbnailUrl, body.fullUrl,
                t1, body.width, body.height⟩) } body id2 t2).2.photos =
        room.photos ++
          [⟨id1, ev.id, "upload", body.driveFileId, body.thumbnailUrl, body.fullUrl,
            t1, body.width, body.height⟩] := by
      simp [handleNotifyPhoto, hact, hd2]
    refine ⟨h2, ?_⟩
    rw [h2s, List.countP_append]
    have hz : room.photos.countP (fun p => p.driveFileId == body.driveFileId) = 0 := by
      simpa [hd] using hinv body.driveFileId
    simp [hz, List.countP_cons]

/-- Witness for handleNotifyPhoto_dedup_idempotent on a concrete empty
active room. -/
theorem handleNotifyPhoto_dedup_idempotent_witness :
    (handleNotifyPhoto
      (handleNotifyPhoto
        ⟨some ⟨"e1", none, 0, 100, .active, "folder", 0, 0⟩, [], [], [], [], [], none, true⟩
        ⟨"file-1", "https://t", "https://f", none, none⟩ "p1" 1).2
      ⟨"file-1", "https://t", "https://f", none, none⟩ "p2" 2).1 =
      NotifyPhotoResult.duplicate :=
  (handleNotifyPhoto_dedup_idempotent _ _ "p1" "p2" 1 2
    ⟨"e1", none, 0, 100, .active, "folder", 0, 0⟩ rfl rfl
    (by intro d; simp [dedupInvariant])).1

/-- C7: a connection-upgrade request on a resident event with status
ended resurrects it before admission: status goes back to active and
expiresAt becomes 24 hours from now; and when the room is under the
connection cap, the connection is then admitted. -/
theorem upgrade_resurrects_ended (room : RoomState) (folderName : Option String)
    (now : Int) (tempId : String) (newWsid : Nat) (ev : ActivityEvent)
    (hev : room.event = some ev) (hend : ev.status = .ended) :
    (handleWebSocketUpgrade room folderName now tempId newWsid).2.event =
      some { ev with status := .active, expiresAt := now + 86400000 }
    ∧ (room.conns.length < 500 →
        (handleWebSocketUpgrade room folderName now tempId newWsid).1 = .accepted
        ∧ (handleWebSocketUpgrade room folderName now tempId newWsid).2.conns =
            room.conns ++ [⟨newWsid, tempId, 1, [], none⟩]) := by
  constructor
  · by_cases hcap : 500 ≤ room.conns.length
    · simp [handleWebSocketUpgrade, hev, hend, hcap]
    · simp [handleWebSocketUpgrade, hev, hend, hcap]
  · intro hlt
    have hcap : ¬ (500 ≤ room.conns.length) := by omega
    constructor
    · simp [handleWebSocketUpgrade, hev, hend, hcap]
    · simp [handleWebSocketUpgrade, hev, hend, hcap]

/-- Witness for upgrade_resurrects_ended on a concrete ended room. -/
theorem upgrade_resurrects_ended_witness :
    (handleWebSocketUpgrade
      ⟨some ⟨"e1", none, 0, 100, .ended, "folder", 0, 0⟩, [], [], [], [], [], none, false⟩
      none 50 "tmp" 3).2.event =
      some ⟨"e1", none, 0, 50 + 86400000, .active, "folder", 0, 0⟩ :=
  (upgrade_resurrects_ended _ none 50 "tmp" 3
    ⟨"e1", none, 0, 100, .ended, "folder", 0, 0⟩ rfl rfl).1

theorem forall2_map {α : Type} (l : List α) (f : α → α) (R : α → α → Prop)
    (h : ∀ a ∈ l, R a (f a)) : List.Forall₂ R l (l.map f) := by
  induction l with
  | nil => simp
  | cons a as ih =>
    exact List.Forall₂.cons (h a (by simp)) (ih (fun x hx => h x (by simp [hx])))

/-- C5: terminating a resident event sets its status to ended, broadcasts
activity_ended to every open connection, closes every connection with
code 1000, and clears the connection registry, session table and
rate-limit table, while the photo ledger, the dedup index and the rest
of the Event record survive; a subsequent get() returns the Event with
status ended, a participant count recomputed to zero, and the original
photo list. -/
theorem handleEndEvent_frame (room : RoomState) (now now2 : Int)
    (folderName : Option String) (ev : ActivityEvent) (hev : room.event = some ev) :
    (handleEndEvent room now).1 = .ended { ev with status := .ended }
    ∧ (handleEndEvent room now).2.1.event = some { ev with status := .ended }
    ∧ (handleEndEvent room now).2.1.photos = room.photos
    ∧ (handleEndEvent room now).2.1.driveFileIdSet = room.driveFileIdSet
    ∧ (handleEndEvent room now).2.1.conns = []
    ∧ (handleEndEvent room now).2.1.sessionMetadata = []
    ∧ (handleEndEvent room now).2.1.rateLimitState = []
    ∧ List.Forall₂
        (fun c c' => c'.closeCode = some 1000 ∧
          c'.sent = c.sent ++
            (if c.readyState = 1 then
              [ServerMessage.activityEnded ev.id "Host ended the event" now]
            else []))
        room.conns (handleEndEvent room now).2.2
    ∧ (handleGetEvent (handleEndEvent room now).2.1 folderName now2).1 =
        .ok { ev with status := .ended, participantCount := 0 } room.photos 0 := by
  have hrun : handleEndEvent room now =
      (.ended { ev with status := .ended },
       { room with
         event := some { ev with status := EventStatus.ended }
         syncTimerRunning := false
         conns := []
         sessionMetadata := []
         rateLimitState := [] },
       closeAll (broadcast room.conns
         (.activityEnded ev.id "Host ended the event" now)) 1000) := by
    simp [handleEndEvent, hev]
  rw [hrun]
  refine ⟨rfl, rfl, rfl, rfl, rfl, rfl, rfl, ?_, ?_⟩
  · show List.Forall₂ _ room.conns
      (closeAll (broadcast room.conns (.activityEnded ev.id "Host ended the event" now)) 1000)
    unfold closeAll broadcast
    rw [List.map_map]
    apply forall2_map
    intro c _
    by_cases hopen : c.readyState = 1
    · simp [hopen]
    · simp [hopen]
  · simp [handleGetEvent]

/-- Witness for handleEndEvent_frame on a concrete active room with one
open connection. -/
theorem handleEndEvent_frame_witness :
    (handleEndEvent
      ⟨some ⟨"e1", none, 0, 100, .active, "folder", 1, 1⟩,
        [⟨"p1", "e1", "s1", "file-1", "https://t", "https://f", 5, none, none⟩], ["file-1"],
        [⟨7, "s1", 1, [], none⟩], [("s1", ⟨"s1", "e1", 0, .participant, true⟩)],
        [("s1", ⟨[], []⟩)], none, true⟩ 9).2.1.photos =
      [⟨"p1", "e1", "s1", "file-1", "https://t", "https://f", 5, none, none⟩] :=
  (handleEndEvent_frame _ 9 10 none ⟨"e1", none, 0, 100, .active, "folder", 1, 1⟩ rfl).2.2.1

/-- The rate-limit admission condition at the WebSocket handlers: either
no state exists for the session (the check is skipped) or the check
allows. -/
def rateLimitAllows (room : RoomState) (sessionId : String) (type : ActionType)
    (now : Int) : Prop :=
  match lookupAssoc room.rateLimitState sessionId with
  | some st => (checkRateLimit st type DEFAULT_RATE_LIMIT_CONFIG now).allowed = true
  | none => True

/-- C6: a successful client photo submission broadcasts photo_added
exactly to the open display-role connections (participants receive
nothing), while a successful danmaku is broadcast to every open
connection regardless of role. -/
theorem broadcast_scoping (room : RoomState) (sessionId : String) (senderWsid : Nat)
    (msg : PhotoMessage) (content freshId freshId2 : String) (now now2 : Int)
    (ev : ActivityEvent) (hev : room.event = some ev)
    (hvalid : (validatePhotoUpload msg.driveFileId msg.thumbnailUrl msg.fullUrl).valid = true)
    (hnew : msg.driveFileId ∉ room.driveFileIdSet)
    (hrl : rateLimitAllows room sessionId .photo now)
    (hv2 : (validateDanmakuContent content).valid = true)
    (hclean : (filterProfanity content).1 = true)
    (hrl2 : rateLimitAllows room sessionId .danmaku now2) :
    List.Forall₂
      (fun c c' => c'.sent = c.sent ++
        (if isDisplayOpen room.sessionMetadata c then
          [ServerMessage.photoAdded
            ⟨freshId, ev.id, sessionId, msg.driveFileId, msg.thumbnailUrl, msg.fullUrl,
              now, msg.width, msg.height⟩]
        else []))
      room.conns (handlePhotoAdded room sessionId senderWsid msg freshId now).conns
    ∧ List.Forall₂
      (fun c c' => c'.sent = c.sent ++
        (if c.readyState = 1 then
          [ServerMessage.danmaku freshId2 content sessionId now2]
        else []))
      room.conns (handleDanmaku room sessionId senderWsid content freshId2 now2).conns := by
  constructor
  · have hc : (handlePhotoAdded room sessionId senderWsid msg freshId now).conns =
        broadcastToDisplays room.sessionMetadata room.conns
          (.photoAdded
            ⟨freshId, ev.id, sessionId, msg.driveFileId, msg.thumbnailUrl, msg.fullUrl,
              now, msg.width, msg.height⟩) := by
      unfold handlePhotoAdded
      rw [if_neg (by simp [hvalid]), if_neg (by simp [hnew])]
      unfold rateLimitAllows at hrl
      cases hlk : lookupAssoc room.rateLimitState sessionId with
      | some st =>
        rw [hlk] at hrl
        simp only [hlk]
        rw [if_neg (by simp [hrl])]
        simp [commitPhoto, hev]
      | none =>
        rw [hlk] at hrl
        simp only [hlk]
        simp [commitPhoto, hev]
    rw [hc]
    unfold broadcastToDisplays
    apply forall2_map
    intro c _
    by_cases hdisp : isDisplayOpen room.sessionMetadata c = true
    · simp [hdisp]
    · simp [hdisp]
  · have hc : (handleDanmaku room sessionId senderWsid content freshId2 now2).conns =
        broadcast room.conns (.danmaku freshId2 content sessionId now2) := by
      unfold handleDanmaku
      rw [if_neg (by simp [hv2]), if_neg (by simp [hclean])]
      unfold rateLimitAllows at hrl2
      cases hlk : lookupAssoc room.rateLimitState sessionId with
      | some st =>
        rw [hlk] at hrl2
        simp only [hlk]
        rw [if_neg (by simp [hrl2])]
        simp [commitDanmaku]
      | none =>
        rw [hlk] at hrl2
        simp only [hlk]
        simp [commitDanmaku]
    rw [hc]
    unfold broadcast
    apply forall2_map
    intro c _
    by_cases hopen : c.readyState = 1
    · simp [hopen]
    · simp [hopen]

/-- A concrete session table: one display and one participant. -/
def sessionsC : List (String × ParticipantSession) :=
  [("disp", ⟨"disp", "e1", 0, .display, true⟩), ("part", ⟨"part", "e1", 0, .participant, true⟩)]

/-- A concrete active room with one open display connection and one open
participant connection. -/
def roomC : RoomState :=
  ⟨some ⟨"e1", none, 0, 100, .active, "folder", 0, 0⟩, [], [],
    [⟨1, "disp", 1, [], none⟩, ⟨2, "part", 1, [], none⟩], sessionsC, [], none, true⟩

/-- Witness for broadcast_scoping on the concrete two-connection room. -/
theorem broadcast_scoping_witness :
    List.Forall₂
      (fun c c' => c'.sent = c.sent ++
        (if isDisplayOpen roomC.sessionMetadata c then
          [ServerMessage.photoAdded
            ⟨"p1", "e1", "part", "abcdefghij1234567890", "https://t", "https://f",
              0, none, none⟩]
        else []))
      roomC.conns
      (handlePhotoAdded roomC "part" 2
        ⟨"abcdefghij1234567890", "https://t", "https://f", none, none⟩ "p1" 0).conns :=
  (broadcast_scoping roomC "part" 2
    ⟨"abcdefghij1234567890", "https://t", "https://f", none, none⟩ "hi" "p1" "d1" 0 0
    ⟨"e1", none, 0, 100, .active, "folder", 0, 0⟩ rfl (by decide) (by decide) trivial
    (by decide) (by decide) trivial).1

/-- C9 counterexample: in a room with a single open connection, a chat
message failing the profanity predicate ("fuck") is rejected with code
INVALID_DANMAKU — the same code a length violation (the empty message)
receives — not with a distinct code, refuting the distinct-error-codes
claim. -/
theorem danmaku_length_profanity_same_code :
    (handleDanmaku ⟨none, [], [], [⟨7, "s1", 1, [], none⟩], [], [], none, false⟩
        "s1" 7 "fuck" "m1" 0).conns =
      [⟨7, "s1", 1,
        [ServerMessage.error "INVALID_DANMAKU" "Danmaku contains inappropriate content" none],
        none⟩]
    ∧ (handleDanmaku ⟨none, [], [], [⟨7, "s1", 1, [], none⟩], [], [], none, false⟩
        "s1" 7 "" "m2" 0).conns =
      [⟨7, "s1", 1,
        [ServerMessage.error "INVALID_DANMAKU" "Danmaku content cannot be empty" none],
        none⟩] := by
  constructor
  · decide
  · decide

/-- C9 (amended): a chat message failing validateDanmakuContent — for a
length violation and for a profanity violation alike — is rejected with
the single error code INVALID_DANMAKU, delivered only to the originating
connection, which is neither closed nor otherwise modified; profane
content always fails validateDanmakuContent, so the subsequent
PROFANITY_DETECTED branch of handleDanmaku is unreachable and content
violations do not receive a distinct code. -/
theorem handleDanmaku_invalid_rejection (room : RoomState) (sessionId : String)
    (senderWsid : Nat) (content freshId : String) (now : Int)
    (hinvalid : (validateDanmakuContent content).valid = false) :
    handleDanmaku room sessionId senderWsid content freshId now =
      { room with
        conns := sendTo room.conns senderWsid
          (.error "INVALID_DANMAKU"
            (String.intercalate ", " (validateDanmakuContent content).errors) none) }
    ∧ List.Forall₂
        (fun c c' => c'.closeCode = c.closeCode ∧ c'.readyState = c.readyState ∧
          c'.sent = c.sent ++
            (if c.wsid = senderWsid then
              [ServerMessage.error "INVALID_DANMAKU"
                (String.intercalate ", " (validateDanmakuContent content).errors) none]
            else []))
        room.conns (handleDanmaku room sessionId senderWsid content freshId now).conns
    ∧ (∀ c : String, containsProfanity c = true → (validateDanmakuContent c).valid = false) := by
  have h1 : handleDanmaku room sessionId senderWsid content freshId now =
      { room with
        conns := sendTo room.conns senderWsid
          (.error "INVALID_DANMAKU"
            (String.intercalate ", " (validateDanmakuContent content).errors) none) } := by
    simp only [handleDanmaku]
    rw [if_pos hinvalid]
  refine ⟨h1, ?_, ?_⟩
  · rw [h1]
    unfold sendTo
    apply forall2_map
    intro c _
    by_cases hwsid : c.wsid = senderWsid
    · simp [hwsid]
    · simp [hwsid]
  · intro c hprof
    simp [validateDanmakuContent, hprof]

/-- Witness for handleDanmaku_invalid_rejection on the concrete profane
message. -/
theorem handleDanmaku_invalid_rejection_witness :
    handleDanmaku ⟨none, [], [], [⟨7, "s1", 1, [], none⟩], [], [], none, false⟩
        "s1" 7 "fuck" "m1" 0 =
      { (⟨none, [], [], [⟨7, "s1", 1, [], none⟩], [], [], none, false⟩ : RoomState) with
        conns := sendTo [⟨7, "s1", 1, [], none⟩] 7
          (.error "INVALID_DANMAKU"
            (String.intercalate ", " (validateDanmakuContent "fuck").errors) none) } :=
  (handleDanmaku_invalid_rejection
    ⟨none, [], [], [⟨7, "s1", 1, [], none⟩], [], [], none, false⟩
    "s1" 7 "fuck" "m1" 0 (by decide)).1

/-! ## Playlist scheduler — the EventRoom variant with playlist
management (src/unnamed/part_000)

shuffleArray draws Math.floor(Math.random() * (i + 1)), a value in
[0, i]; the draws are supplied by an oracle and clamped into [0, i], so
every theorem below holds for every possible sequence of draws. -/

/-- The destructuring swap of two positions of the JS array copy. -/
def listSwap {α : Type} (l : List α) (i j : Nat) : List α :=
  if hi : i < l.length then
    if hj : j < l.length then
      (l.set i (l.get ⟨j, hj⟩)).set j (l.get ⟨i, hi⟩)
    else l
  else l

/-- The Fisher-Yates loop of shuffleArray, counting i down to 1. -/
def fyLoop {α : Type} (choice : Nat → Nat) (l : List α) : Nat → List α
  | 0 => l
  | i + 1 => fyLoop choice (listSwap l (i + 1) (min (choice (i + 1)) (i + 1))) i

/-- shuffleArray from the playlist EventRoom variant. -/
def shuffleArray {α : Type} (choice : Nat → Nat) (l : List α) : List α :=
  fyLoop choice l (l.length - 1)

structure PlaylistState where
  playlistQueue : List Photo
  currentPlaylistIndex : Nat
deriving DecidableEq

/-- splice(n, 0, a): insertion at n, with n clamped to the length as JS
splice does. -/
def spliceInsert {α : Type} (n : Nat) (a : α) (l : List α) : List α :=
  l.take n ++ [a] ++ l.drop n

/-- addToPlaylist: skip when the photo id is already queued, otherwise
insert right after the current playback position. -/
def addToPlaylist (st : PlaylistState) (photo : Photo) : PlaylistState :=
  if st.playlistQueue.any (fun p => p.id == photo.id) then st
  else
    { st with
      playlistQueue := spliceInsert (st.currentPlaylistIndex + 1) photo st.playlistQueue }

/-- reshufflePlaylist: shuffle the queue, reset the cursor. -/
def reshufflePlaylist (choice : Nat → Nat) (st : PlaylistState) : PlaylistState :=
  ⟨shuffleArray choice st.playlistQueue, 0⟩

/-- advancePlayback: the queue/cursor dynamics — broadcast the indexed
photo (the play_photo send is orthogonal to this state and not
modelled), increment the cursor, reshuffle and reset when the cursor
runs past the end.  The Bool records whether this advance reshuffled. -/
def advancePlayback (choice : Nat → Nat) (st : PlaylistState) : PlaylistState × Bool :=
  if st.playlistQueue.length = 0 then (st, false)
  else
    let idx := st.currentPlaylistIndex + 1
    if st.playlistQueue.length ≤ idx then
      (reshufflePlaylist choice { st with currentPlaylistIndex := idx }, true)
    else
      ({ st with currentPlaylistIndex := idx }, false)

/-- k successive advances, with one fresh draw oracle per advance,
counting the reshuffles. -/
def advanceMany (choice : Nat → Nat → Nat) (st : PlaylistState) :
    Nat → PlaylistState × Nat
  | 0 => (st, 0)
  | k + 1 =>
    let prev := advanceMany choice st k
    let step := advancePlayback (choice k) prev.1
    (step.1, prev.2 + (if step.2 then 1 else 0))

theorem get_cons_set_perm {α : Type} : ∀ (xs : List α) (k : Nat) (hk : k < xs.length) (x : α),
    (xs.get ⟨k, hk⟩ :: xs.set k x).Perm (x :: xs)
  | [], k, hk, _ => absurd hk (by simp)
  | y :: ys, 0, _, x => by
    simpa using List.Perm.swap x y ys
  | y :: ys, k + 1, hk, x => by
    simp only [List.get_cons_succ, List.set_cons_succ]
    exact List.Perm.trans (List.Perm.swap y _ _)
      (List.Perm.trans (List.Perm.cons y (get_cons_set_perm ys k (by simpa using hk) x))
        (List.Perm.swap x y ys))

theorem set_set_perm {α : Type} : ∀ (l : List α) (i j : Nat) (hi : i < l.length)
    (hj : j < l.length),
    ((l.set i (l.get ⟨j, hj⟩)).set j (l.get ⟨i, hi⟩)).Perm l
  | [], _, _, hi, _ => absurd hi (by simp)
  | x :: xs, 0, 0, _, _ => by simp
  | x :: xs, 0, j + 1, hi, hj => by
    simp only [List.get_cons_succ, List.get_cons_zero, List.set_cons_zero, List.set_cons_succ]
    exact get_cons_set_perm xs j (by simpa using hj) x
  | x :: xs, i + 1, 0, hi, hj => by
    simp only [List.get_cons_succ, List.get_cons_zero, List.set_cons_zero, List.set_cons_succ]
    exact get_cons_set_perm xs i (by simpa using hi) x
  | x :: xs, i + 1, j + 1, hi, hj => by
    simp only [List.get_cons_succ, List.set_cons_succ]
    exact List.Perm.cons x (set_set_perm xs i j (by simpa using hi) (by simpa using hj))

theorem listSwap_perm {α : Type} (l : List α) (i j : Nat) : (listSwap l i j).Perm l := by
  unfold listSwap
  split
  · split
    · exact set_set_perm l i j (by assumption) (by assumption)
    · exact List.Perm.refl l
  · exact List.Perm.refl l

theorem fyLoop_perm {α : Type} (choice : Nat → Nat) :
    ∀ (n : Nat) (l : List α), (fyLoop choice l n).Perm l := by
  intro n
  induction n with
  | zero => intro l; exact List.Perm.refl l
  | succ i ih =>
    intro l
    exact List.Perm.trans (ih _) (listSwap_perm l (i + 1) (min (choice (i + 1)) (i + 1)))

theorem shuffleArray_perm {α : Type} (choice : Nat → Nat) (l : List α) :
    (shuffleArray choice l).Perm l :=
  fyLoop_perm choice (l.length - 1) l

theorem spliceInsert_perm {α : Type} (n : Nat) (a : α) (l : List α) :
    (spliceInsert n a l).Perm (a :: l) := by
  unfold spliceInsert
  have h1 : l.take n ++ [a] ++ l.drop n = l.take n ++ a :: l.drop n := by simp
  rw [h1]
  have h2 := @List.perm_middle _ a (l.take n) (l.drop n)
  rw [List.take_append_drop] at h2
  exact h2

theorem foldl_addToPlaylist (rest : List Photo) : ∀ (st : PlaylistState),
    (∀ p ∈ rest, ∀ q ∈ st.playlistQueue, p.id ≠ q.id) →
    rest.Pairwise (fun a b => a.id ≠ b.id) →
    (rest.foldl addToPlaylist st).playlistQueue.Perm (st.playlistQueue ++ rest)
    ∧ (rest.foldl addToPlaylist st).currentPlaylistIndex = st.currentPlaylistIndex := by
  induction rest with
  | nil => intro st _ _; simp
  | cons p ps ih =>
    intro st hfresh hpair
    have hany : st.playlistQueue.any (fun q => q.id == p.id) = false := by
      simp only [List.any_eq_false]
      intro q hq
      simpa using (hfresh p (by simp) q hq).symm
    have haddp : addToPlaylist st p =
        ⟨spliceInsert (st.currentPlaylistIndex + 1) p st.playlistQueue,
          st.currentPlaylistIndex⟩ := by
      simp [addToPlaylist, hany]
    rw [List.foldl_cons, haddp]
    have hsplice := spliceInsert_perm (st.currentPlaylistIndex + 1) p st.playlistQueue
    have hfresh1 : ∀ p' ∈ ps,
        ∀ q ∈ spliceInsert (st.currentPlaylistIndex + 1) p st.playlistQueue, p'.id ≠ q.id := by
      intro p' hp' q hq
      have hq' : q ∈ p :: st.playlistQueue := hsplice.mem_iff.mp hq
      rcases List.mem_cons.mp hq' with hq' | hq'
      · subst hq'
        exact ((List.pairwise_cons.mp hpair).1 p' hp').symm
      · exact hfresh p' (by simp [hp']) q hq'
    obtain ⟨hqrec, hirec⟩ :=
      ih ⟨spliceInsert (st.currentPlaylistIndex + 1) p st.playlistQueue,
        st.currentPlaylistIndex⟩ hfresh1 (List.pairwise_cons.mp hpair).2
    refine ⟨hqrec.trans ?_, hirec⟩
    have happ := hsplice.append_right ps
    refine happ.trans ?_
    exact (@List.perm_middle _ p st.playlistQueue ps).symm

theorem advanceMany_lt (choice : Nat → Nat → Nat) (q : List Photo) :
    ∀ k, k < q.length → advanceMany choice ⟨q, 0⟩ k = (⟨q, k⟩, 0) := by
  intro k
  induction k with
  | zero => intro _; rfl
  | succ n ih =>
    intro hk
    have hn := ih (by omega)
    have h0 : ¬ (q.length = 0) := by omega
    have h1 : ¬ (q.length ≤ n + 1) := by omega
    simp [advanceMany, hn, advancePlayback, h0, h1]

/-- C4: starting from the empty playlist with cursor 0, inserting N
photos (with distinct ids) and then advancing the cursor N times
triggers exactly one reshuffle; the post-reshuffle sequence is a
permutation of the same N photos (hence of the same photo ids) and the
cursor is reset to 0 — for every possible sequence of random draws of
the Fisher-Yates shuffle. -/
theorem playlist_exhaustion (photos : List Photo) (choice : Nat → Nat → Nat)
    (hne : photos ≠ [])
    (hdistinct : photos.Pairwise (fun a b => a.id ≠ b.id)) :
    (advanceMany choice (photos.foldl addToPlaylist ⟨[], 0⟩) photos.length).2 = 1
    ∧ (advanceMany choice (photos.foldl addToPlaylist ⟨[], 0⟩)
        photos.length).1.currentPlaylistIndex = 0
    ∧ (advanceMany choice (photos.foldl addToPlaylist ⟨[], 0⟩)
        photos.length).1.playlistQueue.Perm photos := by
  obtain ⟨hqperm, hidx0⟩ := foldl_addToPlaylist photos ⟨[], 0⟩ (by simp) hdistinct
  have hq : (photos.foldl addToPlaylist ⟨[], 0⟩).playlistQueue.Perm photos := by
    simpa using hqperm
  have hi0 : (photos.foldl addToPlaylist ⟨[], 0⟩).currentPlaylistIndex = 0 := by
    simpa using hidx0
  cases hfold : photos.foldl addToPlaylist ⟨[], 0⟩ with
  | mk Q i =>
  rw [hfold] at hq hi0
  simp only at hq hi0
  subst hi0
  have hlen : Q.length = photos.length := hq.length_eq
  obtain ⟨m, hm⟩ : ∃ m, photos.length = m + 1 := by
    cases photos with
    | nil => exact absurd rfl hne
    | cons a l => exact ⟨l.length, by simp⟩
  rw [hm]
  have hprev : advanceMany choice ⟨Q, 0⟩ m = (⟨Q, m⟩, 0) :=
    advanceMany_lt choice Q m (by omega)
  have hstep : advancePlayback (choice m) ⟨Q, m⟩ =
      (⟨shuffleArray (choice m) Q, 0⟩, true) := by
    have h0 : ¬ (Q.length = 0) := by omega
    have h1 : Q.length ≤ m + 1 := by omega
    simp [advancePlayback, reshufflePlaylist, h0, h1]
  refine ⟨?_, ?_, ?_⟩
  · simp [advanceMany, hprev, hstep]
  · simp [advanceMany, hprev, hstep]
  · simp only [advanceMany, hprev, hstep]
    exact (shuffleArray_perm (choice m) Q).trans hq

/-- Witness for playlist_exhaustion with three concrete photos and the
all-zero draw oracle. -/
theorem playlist_exhaustion_witness :
    (advanceMany (fun _ _ => 0)
      ([⟨"a", "e", "s", "f1", "t", "u", 0, none, none⟩,
        ⟨"b", "e", "s", "f2", "t", "u", 0, none, none⟩,
        ⟨"c", "e", "s", "f3", "t", "u", 0, none, none⟩].foldl addToPlaylist ⟨[], 0⟩)
      3).2 = 1 :=
  (playlist_exhaustion
    [⟨"a", "e", "s", "f1", "t", "u", 0, none, none⟩,
     ⟨"b", "e", "s", "f2", "t", "u", 0, none, none⟩,
     ⟨"c", "e", "s", "f3", "t", "u", 0, none, none⟩]
    (fun _ _ => 0) (by decide) (by decide)).1
